import Mathlib

/-!
Verification of the layout-and-interaction engine of the context_collapse
repository: the force-directed graph simulation (`GraphSimulation`), the
canvas renderer (`GraphRenderer`) and the canvas interaction hook
(`useCanvasInteraction`), shallowly embedded over the rationals.

JavaScript numbers are modelled as `ℚ` (exact arithmetic; every value of the
embedding is a finite rational).  `Math.sqrt` is not rational-valued, so all
simulation and hit-testing functions take an explicit square-root oracle
`sq : ℚ → ℚ`; theorems that depend on actual square-root values carry a
pointwise hypothesis `IsSqrtAt sq s` stating that `sq` is the exact
nonnegative square root at the inputs that matter, and concrete witnesses
instantiate `sq` with the executable `ratSqrt` at perfect-square inputs.
Node `x`, `y`, `vx`, `vy` fields are plain rationals: the spec's data-model
invariant says positions are defined once initialized, and the JavaScript
`(v || 0)` coalescing is the identity on defined numbers (note `0 || 0 = 0`).
-/

/-- A graph node: opaque id, display label (as a character list, so that the
case-insensitive substring search of the renderer can be stated), and motion
state.  Mirrors the `Node` type used by `GraphSimulation`/`GraphRenderer`. -/
structure Node where
  id : String
  label : List Char
  x : ℚ
  y : ℚ
  vx : ℚ
  vy : ℚ
deriving DecidableEq, Repr

/-- A weighted connection between two node ids, mirroring `Connection`. -/
structure Connection where
  source : String
  target : String
  strength : ℚ
  isSurprising : Bool
deriving DecidableEq, Repr

/-- States that `sq` gives the exact nonnegative square root at the particular input `s`. -/
def IsSqrtAt (sq : ℚ → ℚ) (s : ℚ) : Prop :=
  0 ≤ sq s ∧ sq s * sq s = s

/-- Largest `k ≤ fuel` with `k * k ≤ n` (fuel-based integer square root). -/
def natSqrtGo (n : Nat) : Nat → Nat
  | 0 => 0
  | k+1 => if (k+1)*(k+1) ≤ n then k+1 else natSqrtGo n k

/-- Integer square root by downward search (structural recursion). -/
def natSqrtFn (n : Nat) : Nat := natSqrtGo n n

/-- Executable rational square root, exact on rationals whose numerator and
denominator are perfect squares (the concrete inputs used by witnesses). -/
def ratSqrt (q : ℚ) : ℚ :=
  (natSqrtFn q.num.toNat : ℚ) / (natSqrtFn q.den : ℚ)

-- `GraphSimulation` private constants (part_004, lines 7-14).
def baseAlpha : ℚ := 3/10
def minAlpha : ℚ := 1/20
def cooling : ℚ := 199/200
def centerForce : ℚ := 1/400
def repulsion : ℚ := 5000
def attraction : ℚ := 1/100
def damping : ℚ := 4/5

/-- Camera state owned by `useCanvasInteraction`: zoom, pan and surface size. -/
structure Camera where
  zoom : ℚ
  panx : ℚ
  pany : ℚ
  width : ℚ
  height : ℚ
deriving DecidableEq, Repr

/-- Screen/canvas-to-world mapping used by `getNodeAtPosition` and
`handleMouseMove`: `(canvasX - width/2 - pan.x) / zoom`. -/
def toWorldX (cam : Camera) (canvasX : ℚ) : ℚ :=
  (canvasX - cam.width / 2 - cam.panx) / cam.zoom

/-- Screen/canvas-to-world mapping, y coordinate. -/
def toWorldY (cam : Camera) (canvasY : ℚ) : ℚ :=
  (canvasY - cam.height / 2 - cam.pany) / cam.zoom

/-- The renderer camera transform `GraphRenderer.setupTransform`:
`ctx.translate(width/2 + pan.x, height/2 + pan.y); ctx.scale(zoom, zoom)`
sends world x to screen `width/2 + pan.x + zoom * x`. -/
def toScreenX (cam : Camera) (worldX : ℚ) : ℚ :=
  cam.width / 2 + cam.panx + cam.zoom * worldX

/-- Renderer camera transform, y coordinate. -/
def toScreenY (cam : Camera) (worldY : ℚ) : ℚ :=
  cam.height / 2 + cam.pany + cam.zoom * worldY

/-- Embeds `handleWheel` (useCanvasInteraction.ts, lines 144-153): with meta or ctrl
held, multiply zoom by 0.9 when `deltaY > 0` else 1.1, clamped to [0.5, 3];
without the modifier the handler does nothing. -/
def handleWheel (metaKey ctrlKey : Bool) (deltaY : ℚ) (zoom : ℚ) : ℚ :=
  if metaKey || ctrlKey then
    max (1/2) (min 3 (zoom * (if 0 < deltaY then 9/10 else 11/10)))
  else
    zoom

/-- One wheel event: modifier flags and scroll delta. -/
structure WheelEv where
  metaKey : Bool
  ctrlKey : Bool
  deltaY : ℚ

/-- The zoom value after a sequence of wheel events. -/
def applyWheelEvents (evs : List WheelEv) (zoom : ℚ) : ℚ :=
  evs.foldl (fun z e => handleWheel e.metaKey e.ctrlKey e.deltaY z) zoom

/-- C5: The screen-to-world mapping used for hit-testing and dragging and the
renderer's camera transform are exact inverses over the rationals: for every
camera with zoom in [0.5, 3.0] (any finite pan and surface size) and every
point, `toWorld (toScreen p) = p`. -/
theorem transform_roundtrip_c5 (cam : Camera)
    (hz : 1/2 ≤ cam.zoom ∧ cam.zoom ≤ 3) (px py : ℚ) :
    toWorldX cam (toScreenX cam px) = px ∧ toWorldY cam (toScreenY cam py) = py := by
  have hzne : cam.zoom ≠ 0 := by
    intro h
    rw [h] at hz
    exact absurd hz.1 (by norm_num)
  constructor <;>
    · simp only [toWorldX, toWorldY, toScreenX, toScreenY]
      field_simp
      ring

/-- Witness for C5 at a concrete camera (zoom 2, pan (5,7), surface 800×600)
and point (3,4). -/
theorem transform_roundtrip_c5_witness :
    toWorldX ⟨2, 5, 7, 800, 600⟩ (toScreenX ⟨2, 5, 7, 800, 600⟩ 3) = 3 ∧
    toWorldY ⟨2, 5, 7, 800, 600⟩ (toScreenY ⟨2, 5, 7, 800, 600⟩ 4) = 4 :=
  transform_roundtrip_c5 ⟨2, 5, 7, 800, 600⟩ (by norm_num) 3 4

/-- C6: with meta or ctrl held, the new zoom is the old zoom times 0.9 (when
`deltaY > 0`) or 1.1 (otherwise), clamped to [0.5, 3]; `deltaY = 100` at zoom
1 gives exactly 0.9 and `deltaY = -100` gives exactly 1.1; without the
modifier zoom is unchanged; and starting from any zoom in [0.5, 3], no
sequence of wheel events leaves [0.5, 3]. -/
theorem wheel_zoom_c6 :
    (∀ (m c : Bool) (dY z : ℚ), (m || c) = true →
      handleWheel m c dY z = max (1/2) (min 3 (z * (if 0 < dY then 9/10 else 11/10)))) ∧
    (∀ dY z : ℚ, handleWheel false false dY z = z) ∧
    handleWheel false true 100 1 = 9/10 ∧
    handleWheel false true (-100) 1 = 11/10 ∧
    (∀ (evs : List WheelEv) (z : ℚ), 1/2 ≤ z → z ≤ 3 →
      1/2 ≤ applyWheelEvents evs z ∧ applyWheelEvents evs z ≤ 3) := by
  refine ⟨fun m c dY z h => by simp [handleWheel, h], fun dY z => rfl, by norm_num [handleWheel], by norm_num [handleWheel], ?_⟩
  intro evs
  induction evs with
  | nil => exact fun z h1 h2 => ⟨h1, h2⟩
  | cons e rest ih =>
    intro z h1 h2
    have hstep : 1/2 ≤ handleWheel e.metaKey e.ctrlKey e.deltaY z ∧
        handleWheel e.metaKey e.ctrlKey e.deltaY z ≤ 3 := by
      unfold handleWheel
      by_cases h : (e.metaKey || e.ctrlKey) = true
      · simp only [h, if_true]
        constructor
        · exact le_max_left _ _
        · exact max_le (by norm_num) (le_trans (min_le_left _ _) (by norm_num))
      · simp only [h, if_false]
        exact ⟨h1, h2⟩
    exact ih _ hstep.1 hstep.2

/-- Witness for C6: a concrete wheel-event sequence starting at zoom 1 stays
inside [0.5, 3], and a modifier-held event follows the clamp formula. -/
theorem wheel_zoom_c6_witness :
    (1/2 ≤ applyWheelEvents [⟨true, false, 1⟩, ⟨false, false, 5⟩, ⟨false, true, -2⟩] 1 ∧
      applyWheelEvents [⟨true, false, 1⟩, ⟨false, false, 5⟩, ⟨false, true, -2⟩] 1 ≤ 3) ∧
    handleWheel true false 5 2 = max (1/2) (min 3 (2 * (9/10))) :=
  ⟨wheel_zoom_c6.2.2.2.2 _ 1 (by norm_num) (by norm_num),
    (wheel_zoom_c6.1 true false 5 2 rfl).trans (by norm_num)⟩

/-- JavaScript `toLowerCase`, on labels modelled as character lists. -/
def jsToLower (s : List Char) : List Char := s.map Char.toLower

/-- Whether `p` is a prefix of `l` (character-by-character comparison). -/
def hasPrefixCh : List Char → List Char → Bool
  | [], _ => true
  | _ :: _, [] => false
  | a :: as, b :: bs => a == b && hasPrefixCh as bs

/-- JavaScript `String.prototype.includes`: `needle` occurs contiguously in
`hay`. -/
def hasSubstrCh (needle : List Char) : List Char → Bool
  | [] => hasPrefixCh needle []
  | c :: rest => hasPrefixCh needle (c :: rest) || hasSubstrCh needle rest

/-- From `GraphRenderer.renderNodes` line 221: a node is a search match exactly
when the query is truthy (nonempty) and the lowercased label contains the
lowercased query. -/
def isSearchMatch (searchQuery label : List Char) : Bool :=
  !searchQuery.isEmpty && hasSubstrCh (jsToLower searchQuery) (jsToLower label)

/-- Fill color for search-matching nodes (renderNodes line 227). -/
def searchMatchColor (isDark : Bool) : String :=
  if isDark then "#3b82f6" else "#2563eb"

/-- Fill color for selected nodes (renderNodes line 229). -/
def selectedColor (isDark : Bool) : String :=
  if isDark then "#8b5cf6" else "#7c3aed"

/-- Fill color for all remaining nodes (renderNodes line 231). -/
def defaultNodeColor (isDark : Bool) : String :=
  if isDark then "#6366f1" else "#4f46e5"

/-- The fill-color selection of `GraphRenderer.renderNodes` (lines 226-232):
search-match, else selected, else the default color.  The hovered flag is
computed by the code but takes no part in the fill choice (it only affects
radius and outline), which is why it is an unused argument here. -/
def nodeFillColor (isDark isHovered isSelected : Bool)
    (searchQuery label : List Char) : String :=
  if isSearchMatch searchQuery label then searchMatchColor isDark
  else if isSelected then selectedColor isDark
  else defaultNodeColor isDark

/-- Node circle radius (renderNodes line 224): 12 when hovered else 10. -/
def nodeRadius (isHovered : Bool) : ℚ := if isHovered then 12 else 10

/-- An id resolves when some node in the array carries it (`nodes.find`). -/
def resolves (nodes : List Node) (id : String) : Bool :=
  (nodes.find? (fun n => n.id == id)).isSome

/-- The connections actually drawn by `GraphRenderer.renderConnections`
(lines 179-206): a connection is skipped when its strength is below the
filter threshold or either endpoint id fails to resolve; every skip is a
plain early return, never an error. -/
def renderedConnections (conns : List Connection) (nodes : List Node)
    (filterStrength : ℚ) : List Connection :=
  conns.filter (fun c =>
    !(decide (c.strength < filterStrength)) &&
      (resolves nodes c.source && resolves nodes c.target))

/-- The function `hasPrefixCh` decides list-prefix. -/
lemma hasPrefixCh_iff (p l : List Char) :
    hasPrefixCh p l = true ↔ ∃ t, l = p ++ t := by
  induction p generalizing l with
  | nil => simp [hasPrefixCh]
  | cons a as ih =>
    cases l with
    | nil => simp [hasPrefixCh]
    | cons b bs =>
      simp only [hasPrefixCh, Bool.and_eq_true, beq_iff_eq, ih,
        List.cons_append, List.cons.injEq]
      constructor
      · rintro ⟨rfl, t, rfl⟩
        exact ⟨t, rfl, rfl⟩
      · rintro ⟨t, rfl, rfl⟩
        exact ⟨rfl, t, rfl⟩

/-- The function `hasSubstrCh` decides contiguous-substring occurrence. -/
lemma hasSubstrCh_iff (n l : List Char) :
    hasSubstrCh n l = true ↔ ∃ pre post, l = pre ++ n ++ post := by
  induction l with
  | nil =>
    simp only [hasSubstrCh, hasPrefixCh_iff]
    constructor
    · rintro ⟨t, ht⟩
      exact ⟨[], t, by simpa using ht⟩
    · rintro ⟨pre, post, h⟩
      have h2 := h.symm
      rw [List.append_eq_nil, List.append_eq_nil] at h2
      exact ⟨[], by simp [h2.1.2]⟩
  | cons c rest ih =>
    simp only [hasSubstrCh, Bool.or_eq_true, hasPrefixCh_iff, ih]
    constructor
    · rintro (⟨t, ht⟩ | ⟨pre, post, hp⟩)
      · exact ⟨[], t, by simpa using ht⟩
      · exact ⟨c :: pre, post, by simp [hp]⟩
    · rintro ⟨pre, post, hp⟩
      cases pre with
      | nil =>
        left
        exact ⟨post, by simpa using hp⟩
      | cons c2 pre2 =>
        right
        rw [List.cons_append, List.cons_append, List.cons.injEq] at hp
        exact ⟨pre2, post, hp.2⟩

/-- C4 counterexample: in the light theme, a node that is hovered but neither
selected nor search-matching receives exactly the same fill color as a plain
node — there is no distinct hovered fill color — and with the empty search
string a label does not receive the search-match color (the code requires a
truthy, i.e. nonempty, query), contradicting the claim that every label
matches an empty search string. -/
theorem node_fill_c4_counterexample :
    nodeFillColor false true false [] [Char.ofNat 97] =
      nodeFillColor false false false [] [Char.ofNat 97] ∧
    nodeFillColor false true false [] [Char.ofNat 97] = defaultNodeColor false ∧
    nodeFillColor false true false [] [Char.ofNat 97] ≠ searchMatchColor false := by
  refine ⟨rfl, rfl, ?_⟩
  decide

/-- C4 amended: the fill color is selected by the precedence
search-match > selected > default; the hovered flag never influences the fill
(it only affects radius/outline), so exactly one of THREE fill categories
applies; a node is a search match exactly when the search string is nonempty
and a case-insensitive substring of its label (the empty query matches no
node); and the three fill colors are pairwise distinct in each theme. -/
theorem node_fill_c4_amended (isDark h1 h2 sel : Bool) (q l : List Char) :
    (nodeFillColor isDark h1 sel q l = nodeFillColor isDark h2 sel q l) ∧
    (isSearchMatch q l = true → nodeFillColor isDark h1 sel q l = searchMatchColor isDark) ∧
    (isSearchMatch q l = false → sel = true →
      nodeFillColor isDark h1 sel q l = selectedColor isDark) ∧
    (isSearchMatch q l = false → sel = false →
      nodeFillColor isDark h1 sel q l = defaultNodeColor isDark) ∧
    (isSearchMatch q l = true ↔
      q ≠ [] ∧ ∃ pre post, jsToLower l = pre ++ jsToLower q ++ post) ∧
    (searchMatchColor isDark ≠ selectedColor isDark ∧
      selectedColor isDark ≠ defaultNodeColor isDark ∧
      searchMatchColor isDark ≠ defaultNodeColor isDark) := by
  refine ⟨rfl, ?_, ?_, ?_, ?_, ?_⟩
  · intro hm
    simp [nodeFillColor, hm]
  · intro hm hs
    simp [nodeFillColor, hm, hs]
  · intro hm hs
    simp [nodeFillColor, hm, hs]
  · rw [isSearchMatch, Bool.and_eq_true, hasSubstrCh_iff]
    simp [List.isEmpty_iff]
  · cases isDark <;> exact ⟨by decide, by decide, by decide⟩

/-- Witness for C4 amended: concrete query "ab" against label "xAby" in the
light theme — a search match, so the fill is the search-match color whatever
the hovered flag is. -/
theorem node_fill_c4_amended_witness :
    isSearchMatch [Char.ofNat 97, Char.ofNat 98]
        [Char.ofNat 120, Char.ofNat 65, Char.ofNat 98, Char.ofNat 121] = true ∧
    nodeFillColor false true false [Char.ofNat 97, Char.ofNat 98]
        [Char.ofNat 120, Char.ofNat 65, Char.ofNat 98, Char.ofNat 121] =
      searchMatchColor false := by
  have hm : isSearchMatch [Char.ofNat 97, Char.ofNat 98]
      [Char.ofNat 120, Char.ofNat 65, Char.ofNat 98, Char.ofNat 121] = true := by
    decide
  exact ⟨hm,
    (node_fill_c4_amended false true false false _ _).2.1 hm⟩

/-- C8: the connections drawn by `renderConnections` are exactly those whose
strength is at least the filter threshold (the boundary is inclusive:
`strength < filterStrength` is the skip test) and whose source and target
both resolve in the node array; every other connection is skipped silently —
`renderedConnections` is total, no error path exists. -/
theorem rendered_connections_c8 (conns : List Connection) (nodes : List Node)
    (fs : ℚ) (c : Connection) :
    c ∈ renderedConnections conns nodes fs ↔
      c ∈ conns ∧ fs ≤ c.strength ∧
        (∃ n ∈ nodes, n.id = c.source) ∧ (∃ n ∈ nodes, n.id = c.target) := by
  simp only [renderedConnections, List.mem_filter, Bool.and_eq_true,
    Bool.not_eq_true', decide_eq_false_iff_not, not_lt, resolves,
    List.find?_isSome, beq_iff_eq]

/-- Squared world-space distance from a node to the pointer world position
(the code compares `Math.sqrt` of this quantity against the pick radius). -/
def sqDistTo (wx wy : ℚ) (n : Node) : ℚ :=
  (n.x - wx) * (n.x - wx) + (n.y - wy) * (n.y - wy)

/-- The pointer's world-space x used by `getNodeAtPosition` (line 50):
`(screenX - rect.left - width/2 - pan.x) / zoom`. -/
def pointerWorldX (cam : Camera) (rectLeft screenX : ℚ) : ℚ :=
  toWorldX cam (screenX - rectLeft)

/-- The pointer's world-space y used by `getNodeAtPosition` (line 51). -/
def pointerWorldY (cam : Camera) (rectTop screenY : ℚ) : ℚ :=
  toWorldY cam (screenY - rectTop)

/-- Embeds `getNodeAtPosition` (useCanvasInteraction.ts lines 45-58): convert the
pointer to world space, then `nodes.find(...)` — the FIRST node in array
order whose distance to the pointer is strictly below 12 — with `|| null`
when no node passes. -/
def getNodeAtPosition (sq : ℚ → ℚ) (cam : Camera) (rectLeft rectTop : ℚ)
    (screenX screenY : ℚ) (nodes : List Node) : Option Node :=
  nodes.find? (fun n =>
    decide (sq (sqDistTo (pointerWorldX cam rectLeft screenX)
      (pointerWorldY cam rectTop screenY) n) < 12))

/-- At a point where `sq` is the exact square root, comparing `sq s` with a
nonnegative bound is comparing `s` with the bound squared. -/
lemma sqrtAt_lt_iff {sq : ℚ → ℚ} {s : ℚ} (h : IsSqrtAt sq s) {b : ℚ}
    (hb : 0 ≤ b) : sq s < b ↔ s < b * b := by
  have h2 := mul_self_lt_mul_self_iff h.1 hb
  rw [h.2] at h2
  exact h2

/-- Default camera: zoom 1, no pan, an 800×600 surface. -/
def camDefault : Camera := ⟨1, 0, 0, 800, 600⟩

/-- A node 10 world units right of the origin, listed first. -/
def nodeFar : Node := ⟨"far", [], 10, 0, 0, 0⟩

/-- A node exactly at the origin, listed second. -/
def nodeNear : Node := ⟨"near", [], 0, 0, 0, 0⟩

/-- C2 counterexample: with the pointer exactly at `nodeNear`'s world
coordinate (screen (400,300) maps to world (0,0) under the default camera),
the hit-test returns `nodeFar` — at distance 10, inside the 12-unit pick
radius but NOT the nearest node (`nodeNear` is at distance 0) — because
`nodes.find` takes the first array entry within the radius.  This refutes
both "returns the nearest node within the pick radius" and "a pointer at a
node's exact world coordinate always hits that node". -/
theorem hit_test_c2_counterexample :
    getNodeAtPosition ratSqrt camDefault 0 0 400 300 [nodeFar, nodeNear] =
      some nodeFar ∧
    nodeFar ≠ nodeNear ∧
    pointerWorldX camDefault 0 400 = nodeNear.x ∧
    pointerWorldY camDefault 0 300 = nodeNear.y ∧
    sqDistTo (pointerWorldX camDefault 0 400) (pointerWorldY camDefault 0 300)
        nodeNear = 0 ∧
    sqDistTo (pointerWorldX camDefault 0 400) (pointerWorldY camDefault 0 300)
        nodeFar = 100 := by
  have hwx : pointerWorldX camDefault 0 400 = 0 := by
    norm_num [pointerWorldX, toWorldX, camDefault]
  have hwy : pointerWorldY camDefault 0 300 = 0 := by
    norm_num [pointerWorldY, toWorldY, camDefault]
  refine ⟨?_, by decide, ?_, ?_, ?_, ?_⟩
  · rw [getNodeAtPosition, List.find?]
    have hp : (decide (ratSqrt (sqDistTo (pointerWorldX camDefault 0 400)
        (pointerWorldY camDefault 0 300) nodeFar) < 12)) = true := by
      rw [hwx, hwy]
      norm_num [sqDistTo, nodeFar, ratSqrt, natSqrtFn, natSqrtGo]
    rw [hp]
  · rw [hwx]; rfl
  · rw [hwy]; rfl
  · rw [hwx, hwy]; norm_num [sqDistTo, nodeNear]
  · rw [hwx, hwy]; norm_num [sqDistTo, nodeFar]

/-- C2 amended: `getNodeAtPosition` returns the FIRST node in array order
whose world-space distance to the pointer is strictly less than 12 (not the
nearest); it returns null exactly when every node is at distance ≥ 12 (so in
particular when every node is more than 12 units away); and a pointer at a
node's exact world coordinate hits that node provided no earlier node in the
array lies within the pick radius.  Distances are phrased via squared
distance against 144. -/
theorem hit_test_c2_amended (sq : ℚ → ℚ) (cam : Camera) (rl rt sx sy : ℚ)
    (nodes : List Node)
    (hsq : ∀ n ∈ nodes, IsSqrtAt sq
      (sqDistTo (pointerWorldX cam rl sx) (pointerWorldY cam rt sy) n)) :
    (getNodeAtPosition sq cam rl rt sx sy nodes = none ↔
      ∀ n ∈ nodes,
        144 ≤ sqDistTo (pointerWorldX cam rl sx) (pointerWorldY cam rt sy) n) ∧
    (∀ n, getNodeAtPosition sq cam rl rt sx sy nodes = some n →
      n ∈ nodes ∧
        sqDistTo (pointerWorldX cam rl sx) (pointerWorldY cam rt sy) n < 144) ∧
    (∀ (l1 : List Node) (n : Node) (l2 : List Node), nodes = l1 ++ n :: l2 →
      (∀ m ∈ l1,
        144 ≤ sqDistTo (pointerWorldX cam rl sx) (pointerWorldY cam rt sy) m) →
      sqDistTo (pointerWorldX cam rl sx) (pointerWorldY cam rt sy) n < 144 →
      getNodeAtPosition sq cam rl rt sx sy nodes = some n) := by
  have hiff : ∀ n ∈ nodes,
      ((decide (sq (sqDistTo (pointerWorldX cam rl sx)
        (pointerWorldY cam rt sy) n) < 12)) = true ↔
        sqDistTo (pointerWorldX cam rl sx) (pointerWorldY cam rt sy) n < 144) := by
    intro n hn
    rw [decide_eq_true_eq, sqrtAt_lt_iff (hsq n hn) (by norm_num)]
    norm_num
  refine ⟨?_, ?_, ?_⟩
  · rw [getNodeAtPosition, List.find?_eq_none]
    constructor
    · intro h n hn
      have := h n hn
      rw [Bool.not_eq_true, ← Bool.not_eq_true'] at this
      have h2 := (not_iff_not.mpr (hiff n hn)).mp (by simpa using this)
      exact le_of_not_lt h2
    · intro h n hn
      rw [Bool.not_eq_true, Bool.eq_false_iff]
      intro hc
      exact absurd ((hiff n hn).mp hc) (not_lt.mpr (h n hn))
  · intro n hfind
    rw [getNodeAtPosition] at hfind
    have hmem := List.mem_of_find?_eq_some hfind
    have hp := List.find?_some hfind
    exact ⟨hmem, (hiff n hmem).mp hp⟩
  · rintro l1 n l2 rfl hl1 hn
    rw [getNodeAtPosition, List.find?_append]
    have h1 : List.find? (fun n => decide (sq (sqDistTo (pointerWorldX cam rl sx)
        (pointerWorldY cam rt sy) n) < 12)) l1 = none := by
      rw [List.find?_eq_none]
      intro m hm
      rw [Bool.not_eq_true, Bool.eq_false_iff]
      intro hc
      have hm' : m ∈ l1 ++ n :: l2 := List.mem_append_left _ hm
      exact absurd ((hiff m hm').mp hc) (not_lt.mpr (hl1 m hm))
    rw [h1, Option.none_or, List.find?_cons_of_pos]
    exact (hiff n (by simp)).mpr hn

/-- Witness for C2 amended: with `nodeNear` listed first and the pointer at
its exact world coordinate, the hit-test returns `nodeNear`. -/
theorem hit_test_c2_witness :
    getNodeAtPosition ratSqrt camDefault 0 0 400 300 [nodeNear, nodeFar] =
      some nodeNear := by
  have hwx : pointerWorldX camDefault 0 400 = 0 := by
    norm_num [pointerWorldX, toWorldX, camDefault]
  have hwy : pointerWorldY camDefault 0 300 = 0 := by
    norm_num [pointerWorldY, toWorldY, camDefault]
  have hsq : ∀ n ∈ [nodeNear, nodeFar], IsSqrtAt ratSqrt
      (sqDistTo (pointerWorldX camDefault 0 400)
        (pointerWorldY camDefault 0 300) n) := by
    intro n hn
    rw [hwx, hwy]
    rcases List.mem_cons.mp hn with rfl | hn2
    · constructor <;> norm_num [IsSqrtAt, sqDistTo, nodeNear, ratSqrt, natSqrtFn, natSqrtGo]
    · rcases List.mem_cons.mp hn2 with rfl | h3
      · constructor <;> norm_num [IsSqrtAt, sqDistTo, nodeFar, ratSqrt, natSqrtFn, natSqrtGo]
      · exact absurd h3 (List.not_mem_nil _)
  exact (hit_test_c2_amended ratSqrt camDefault 0 0 400 300 [nodeNear, nodeFar]
      hsq).2.2 [] nodeNear [nodeFar] rfl
    (fun m hm => absurd hm (List.not_mem_nil _))
    (by rw [hwx, hwy]; norm_num [sqDistTo, nodeNear])

/-- Embeds `applyCenteringForce` (part_004, lines 40-49): every non-pinned node's
velocity is pulled toward the origin proportionally to its position and
alpha; guarded by `centerForce <= 0` exactly as in the source. -/
def applyCenteringForce (alpha : ℚ) (dragged : Option String)
    (ns : List Node) : List Node :=
  if centerForce ≤ 0 then ns
  else ns.map (fun n => if dragged = some n.id then n
    else { n with vx := n.vx - n.x * centerForce * alpha,
                  vy := n.vy - n.y * centerForce * alpha })

/-- Squared distance between two nodes (`dx*dx + dy*dy`, with
`dx = n2.x - n1.x` as in the source). -/
def sqDistN (n1 n2 : Node) : ℚ :=
  (n2.x - n1.x) * (n2.x - n1.x) + (n2.y - n1.y) * (n2.y - n1.y)

/-- The source's `Math.sqrt(dx*dx + dy*dy) || 1`: the square root of the squared distance,
replaced by 1 exactly when that square root is 0 (JavaScript falsiness) —
NOT `max 1 d`. -/
def jsDist (sq : ℚ → ℚ) (n1 n2 : Node) : ℚ :=
  if sq (sqDistN n1 n2) = 0 then 1 else sq (sqDistN n1 n2)

/-- Repulsion force magnitude (line 60): `repulsion * alpha / (dist * dist)`. -/
def repForce (sq : ℚ → ℚ) (alpha : ℚ) (n1 n2 : Node) : ℚ :=
  repulsion * alpha / (jsDist sq n1 n2 * jsDist sq n1 n2)

/-- Repulsion force x component (line 62): `(dx / dist) * force`. -/
def repFx (sq : ℚ → ℚ) (alpha : ℚ) (n1 n2 : Node) : ℚ :=
  ((n2.x - n1.x) / jsDist sq n1 n2) * repForce sq alpha n1 n2

/-- Repulsion force y component (line 63). -/
def repFy (sq : ℚ → ℚ) (alpha : ℚ) (n1 n2 : Node) : ℚ :=
  ((n2.y - n1.y) / jsDist sq n1 n2) * repForce sq alpha n1 n2

/-- Add `(dvx, dvy)` to the velocity of the node at index `i` (the in-place
`node.vx = (node.vx || 0) + dvx` of the source, reading the current value). -/
def bumpV (ns : List Node) (i : Nat) (dvx dvy : ℚ) : List Node :=
  match ns[i]? with
  | some n => ns.set i { n with vx := n.vx + dvx, vy := n.vy + dvy }
  | none => ns

/-- The body of the repulsion double loop for one pair `(i, j)` (lines
54-72): compute the force from the pair's positions, then subtract it from
node `i`'s velocity unless pinned and add it to node `j`'s velocity unless
pinned. -/
def applyPairKick (sq : ℚ → ℚ) (alpha : ℚ) (dragged : Option String)
    (ns : List Node) (i j : Nat) : List Node :=
  match ns[i]?, ns[j]? with
  | some n1, some n2 =>
    let fx := repFx sq alpha n1 n2
    let fy := repFy sq alpha n1 n2
    let ns1 := if dragged = some n1.id then ns else bumpV ns i (-fx) (-fy)
    if dragged = some n2.id then ns1 else bumpV ns1 j fx fy
  | _, _ => ns

/-- The index pairs `(i, j)` with `i < j < n` visited by the double loop, in
loop order. -/
def pairIdx (n : Nat) : List (Nat × Nat) :=
  (List.range n).flatMap (fun i => ((List.range n).drop (i+1)).map (fun j => (i, j)))

/-- Embeds `applyRepulsionForces` (lines 51-75): fold the per-pair kick over every
unordered pair of distinct indices. -/
def applyRepulsionForces (sq : ℚ → ℚ) (alpha : ℚ) (dragged : Option String)
    (ns : List Node) : List Node :=
  (pairIdx ns.length).foldl
    (fun acc p => applyPairKick sq alpha dragged acc p.1 p.2) ns

/-- The source's `conn.strength || 0.1` (line 87): JavaScript falsiness replaces a
strength of exactly 0 by 0.1. -/
def attrStrength (c : Connection) : ℚ :=
  if c.strength = 0 then 1/10 else c.strength

/-- Attraction force magnitude (line 87):
`dist * attraction * (strength || 0.1) * alpha`. -/
def attrForce (sq : ℚ → ℚ) (alpha : ℚ) (c : Connection) (s t : Node) : ℚ :=
  jsDist sq s t * attraction * attrStrength c * alpha

/-- Attraction force x component (line 88). -/
def attrFx (sq : ℚ → ℚ) (alpha : ℚ) (c : Connection) (s t : Node) : ℚ :=
  ((t.x - s.x) / jsDist sq s t) * attrForce sq alpha c s t

/-- Attraction force y component (line 89). -/
def attrFy (sq : ℚ → ℚ) (alpha : ℚ) (c : Connection) (s t : Node) : ℚ :=
  ((t.y - s.y) / jsDist sq s t) * attrForce sq alpha c s t

/-- The body of the attraction loop for one connection (lines 78-101):
resolve both endpoint ids with `nodes.find`; when both resolve, add the
spring force to the source's velocity unless pinned and subtract it from the
target's velocity unless pinned; otherwise skip. -/
def applyConnKick (sq : ℚ → ℚ) (alpha : ℚ) (dragged : Option String)
    (ns : List Node) (c : Connection) : List Node :=
  match ns.findIdx? (fun n => n.id == c.source),
      ns.findIdx? (fun n => n.id == c.target) with
  | some si, some ti =>
    match ns[si]?, ns[ti]? with
    | some s, some t =>
      let fx := attrFx sq alpha c s t
      let fy := attrFy sq alpha c s t
      let ns1 := if dragged = some s.id then ns else bumpV ns si fx fy
      if dragged = some t.id then ns1 else bumpV ns1 ti (-fx) (-fy)
    | _, _ => ns
  | _, _ => ns

/-- Embeds `applyAttractionForces` (lines 77-102): fold the per-connection kick over
the connection list. -/
def applyAttractionForces (sq : ℚ → ℚ) (alpha : ℚ) (dragged : Option String)
    (ns : List Node) (conns : List Connection) : List Node :=
  conns.foldl (applyConnKick sq alpha dragged) ns

/-- One node's integration step (lines 107-114): position += velocity,
velocity *= damping, then snap each axis to exactly 0 below the 0.0001
epsilon. -/
def integrate (n : Node) : Node :=
  let vx := n.vx * damping
  let vy := n.vy * damping
  { n with x := n.x + n.vx, y := n.y + n.vy,
           vx := if |vx| < 1/10000 then 0 else vx,
           vy := if |vy| < 1/10000 then 0 else vy }

/-- Embeds `updatePositions` (lines 104-117): integrate every non-pinned node. -/
def updatePositions (dragged : Option String) (ns : List Node) : List Node :=
  ns.map (fun n => if dragged = some n.id then n else integrate n)

/-- The cooling step (line 33): `alpha = max(minAlpha, alpha * cooling)`. -/
def tickAlpha (a : ℚ) : ℚ := max minAlpha (a * cooling)

/-- Embeds `energize` (lines 36-38): `alpha = min(baseAlpha, alpha + amount)`. -/
def energize (amount a : ℚ) : ℚ := min baseAlpha (a + amount)

/-- The alpha boost performed by `initializeNodePositions` (line 133):
`energize(0.1)`.  The random placement of not-yet-positioned nodes does not
touch alpha and is outside this definition. -/
def initializeBoost (a : ℚ) : ℚ := energize (1/10) a

/-- Simulation state carried across ticks: the node list and alpha. -/
structure SimState where
  nodes : List Node
  alpha : ℚ
deriving DecidableEq, Repr

/-- One `simulate` tick (lines 19-34): centering, repulsion, attraction,
integration — all with the tick's incoming alpha — then cooling. -/
def simulate (sq : ℚ → ℚ) (st : SimState) (conns : List Connection)
    (dragged : Option String) : SimState :=
  { nodes := updatePositions dragged
      (applyAttractionForces sq st.alpha dragged
        (applyRepulsionForces sq st.alpha dragged
          (applyCenteringForce st.alpha dragged st.nodes)) conns),
    alpha := tickAlpha st.alpha }

/-- Runs `N` consecutive simulation ticks with a fixed connection set and dragged
id. -/
def simulateN (sq : ℚ → ℚ) : Nat → SimState → List Connection → Option String → SimState
  | 0, st, _, _ => st
  | n + 1, st, conns, dragged => simulateN sq n (simulate sq st conns dragged) conns dragged

/-- The operations that touch alpha: a simulate tick, or the energize boost
of `initializeNodePositions`. -/
inductive SimOp
  | tick
  | initNodes

/-- Effect of one operation on alpha. -/
def applyAlphaOp (a : ℚ) : SimOp → ℚ
  | .tick => tickAlpha a
  | .initNodes => initializeBoost a

/-- Alpha after an arbitrary interleaving of ticks and boosts, starting from
the base value. -/
def runAlphaOps (ops : List SimOp) : ℚ := ops.foldl applyAlphaOp baseAlpha

/-- One alpha operation keeps alpha inside [minAlpha, baseAlpha]. -/
lemma applyAlphaOp_bounds {a : ℚ} (h1 : minAlpha ≤ a) (h2 : a ≤ baseAlpha)
    (op : SimOp) :
    minAlpha ≤ applyAlphaOp a op ∧ applyAlphaOp a op ≤ baseAlpha := by
  cases op with
  | tick =>
    refine ⟨le_max_left _ _, max_le (by norm_num [minAlpha, baseAlpha]) ?_⟩
    have ha : 0 ≤ a := le_trans (by norm_num [minAlpha]) h1
    calc a * cooling ≤ a * 1 := by
          apply mul_le_mul_of_nonneg_left (by norm_num [cooling]) ha
      _ = a := mul_one a
      _ ≤ baseAlpha := h2
  | initNodes =>
    exact ⟨le_min (by norm_num [minAlpha, baseAlpha])
        (le_trans h1 (by linarith)),
      min_le_left _ _⟩

/-- C10: alpha starts at the base value 0.3 and, under any interleaving of
simulate ticks (`tickAlpha`, the `max(minAlpha, alpha * cooling)` of line 33)
and `initializeNodePositions` boosts (`initializeBoost`, the
`min(baseAlpha, alpha + 0.1)` of lines 36-38/133), always stays inside the
closed interval [0.05, 0.3]. -/
theorem alpha_bounds_c10 :
    runAlphaOps [] = baseAlpha ∧ minAlpha = 1/20 ∧ baseAlpha = 3/10 ∧
    ∀ ops : List SimOp, minAlpha ≤ runAlphaOps ops ∧ runAlphaOps ops ≤ baseAlpha := by
  have key : ∀ (ops : List SimOp) (a : ℚ), minAlpha ≤ a → a ≤ baseAlpha →
      minAlpha ≤ ops.foldl applyAlphaOp a ∧ ops.foldl applyAlphaOp a ≤ baseAlpha := by
    intro ops
    induction ops with
    | nil => exact fun a h1 h2 => ⟨h1, h2⟩
    | cons op rest ih =>
      intro a h1 h2
      have hstep := applyAlphaOp_bounds h1 h2 op
      exact ih _ hstep.1 hstep.2
  exact ⟨rfl, rfl, rfl,
    fun ops => key ops baseAlpha (by norm_num [minAlpha, baseAlpha]) le_rfl⟩

/-- A `bumpV` at one index leaves every other index unchanged. -/
lemma bumpV_getElem_ne (ns : List Node) (i : Nat) (dvx dvy : ℚ) {k : Nat}
    (h : i ≠ k) : (bumpV ns i dvx dvy)[k]? = ns[k]? := by
  rw [bumpV]
  cases hns : ns[i]? with
  | none => rfl
  | some n => exact List.getElem?_set_ne h

/-- Setting an index to the value it already holds is the identity. -/
lemma set_self_of_getElem? {α : Type} : ∀ (l : List α) (i : Nat) (a : α),
    l[i]? = some a → l.set i a = l
  | [], _, _, h => by simp at h
  | x :: xs, 0, a, h => by
    simp only [List.getElem?_cons_zero, Option.some.injEq] at h
    simp [h]
  | x :: xs, n + 1, a, h => by
    simp only [List.getElem?_cons_succ] at h
    simp [set_self_of_getElem? xs n a h]

/-- A pinned entry survives one pair kick untouched. -/
lemma applyPairKick_pinned {sq : ℚ → ℚ} {alpha : ℚ} {dragged : Option String}
    {ns : List Node} {i : Nat} {n : Node} (a b : Nat)
    (hi : ns[i]? = some n) (hp : dragged = some n.id) :
    (applyPairKick sq alpha dragged ns a b)[i]? = some n := by
  rw [applyPairKick]
  cases hA : ns[a]? with
  | none => exact hi
  | some n1 =>
    cases hB : ns[b]? with
    | none => exact hi
    | some n2 =>
      simp only
      by_cases h1 : dragged = some n1.id
      · rw [if_pos h1]
        by_cases h2 : dragged = some n2.id
        · rw [if_pos h2]; exact hi
        · have hbi : b ≠ i := by
            intro hbe
            subst hbe
            rw [hB] at hi
            injection hi with h'
            exact h2 (h' ▸ hp)
          rw [if_neg h2, bumpV_getElem_ne _ _ _ _ hbi]
          exact hi
      · have hai : a ≠ i := by
          intro hae
          subst hae
          rw [hA] at hi
          injection hi with h'
          exact h1 (h' ▸ hp)
        rw [if_neg h1]
        by_cases h2 : dragged = some n2.id
        · rw [if_pos h2, bumpV_getElem_ne _ _ _ _ hai]
          exact hi
        · have hbi : b ≠ i := by
            intro hbe
            subst hbe
            rw [hB] at hi
            injection hi with h'
            exact h2 (h' ▸ hp)
          rw [if_neg h2, bumpV_getElem_ne _ _ _ _ hbi,
            bumpV_getElem_ne _ _ _ _ hai]
          exact hi

/-- A pinned entry survives the whole repulsion phase untouched. -/
lemma applyRepulsionForces_pinned {sq : ℚ → ℚ} {alpha : ℚ}
    {dragged : Option String} {ns : List Node} {i : Nat} {n : Node}
    (hi : ns[i]? = some n) (hp : dragged = some n.id) :
    (applyRepulsionForces sq alpha dragged ns)[i]? = some n := by
  rw [applyRepulsionForces]
  generalize pairIdx ns.length = ps
  induction ps generalizing ns with
  | nil => exact hi
  | cons p rest ih =>
    exact ih (applyPairKick_pinned p.1 p.2 hi hp)

/-- A pinned entry survives one connection kick untouched. -/
lemma applyConnKick_pinned {sq : ℚ → ℚ} {alpha : ℚ} {dragged : Option String}
    {ns : List Node} {i : Nat} {n : Node} (c : Connection)
    (hi : ns[i]? = some n) (hp : dragged = some n.id) :
    (applyConnKick sq alpha dragged ns c)[i]? = some n := by
  rw [applyConnKick]
  cases hS : ns.findIdx? (fun n => n.id == c.source) with
  | none => exact hi
  | some si =>
    cases hT : ns.findIdx? (fun n => n.id == c.target) with
    | none => exact hi
    | some ti =>
      simp only
      cases hSV : ns[si]? with
      | none => exact hi
      | some s =>
        cases hTV : ns[ti]? with
        | none => exact hi
        | some t =>
          simp only
          by_cases h1 : dragged = some s.id
          · rw [if_pos h1]
            by_cases h2 : dragged = some t.id
            · rw [if_pos h2]; exact hi
            · have hbi : ti ≠ i := by
                intro hbe
                subst hbe
                rw [hTV] at hi
                injection hi with h'
                exact h2 (h' ▸ hp)
              rw [if_neg h2, bumpV_getElem_ne _ _ _ _ hbi]
              exact hi
          · have hai : si ≠ i := by
              intro hae
              subst hae
              rw [hSV] at hi
              injection hi with h'
              exact h1 (h' ▸ hp)
            rw [if_neg h1]
            by_cases h2 : dragged = some t.id
            · rw [if_pos h2, bumpV_getElem_ne _ _ _ _ hai]
              exact hi
            · have hbi : ti ≠ i := by
                intro hbe
                subst hbe
                rw [hTV] at hi
                injection hi with h'
                exact h2 (h' ▸ hp)
              rw [if_neg h2, bumpV_getElem_ne _ _ _ _ hbi,
                bumpV_getElem_ne _ _ _ _ hai]
              exact hi

/-- A pinned entry survives the whole attraction phase untouched. -/
lemma applyAttractionForces_pinned {sq : ℚ → ℚ} {alpha : ℚ}
    {dragged : Option String} {ns : List Node} {i : Nat} {n : Node}
    (conns : List Connection)
    (hi : ns[i]? = some n) (hp : dragged = some n.id) :
    (applyAttractionForces sq alpha dragged ns conns)[i]? = some n := by
  rw [applyAttractionForces]
  induction conns generalizing ns with
  | nil => exact hi
  | cons c rest ih =>
    exact ih (applyConnKick_pinned c hi hp)

/-- A pinned entry survives the centering phase untouched. -/
lemma applyCenteringForce_pinned {alpha : ℚ} {dragged : Option String}
    {ns : List Node} {i : Nat} {n : Node}
    (hi : ns[i]? = some n) (hp : dragged = some n.id) :
    (applyCenteringForce alpha dragged ns)[i]? = some n := by
  rw [applyCenteringForce, if_neg (by norm_num [centerForce])]
  rw [List.getElem?_map, hi]
  simp [hp]

/-- A pinned entry survives the integration phase untouched. -/
lemma updatePositions_pinned {dragged : Option String}
    {ns : List Node} {i : Nat} {n : Node}
    (hi : ns[i]? = some n) (hp : dragged = some n.id) :
    (updatePositions dragged ns)[i]? = some n := by
  rw [updatePositions, List.getElem?_map, hi]
  simp [hp]

/-- C7: over any node set, connection set and tick count `N`, a node whose id
is the dragged id is returned exactly as it went in — position and velocity
(indeed the whole record) unchanged — because the centering, repulsion,
attraction and integration steps of `simulate` all skip the pinned node. -/
theorem pinned_node_c7 (sq : ℚ → ℚ) (conns : List Connection)
    (draggedId : String) (N : Nat) (st : SimState) (i : Nat) (n : Node)
    (hn : st.nodes[i]? = some n) (hid : n.id = draggedId) :
    (simulateN sq N st conns (some draggedId)).nodes[i]? = some n := by
  have hp : (some draggedId : Option String) = some n.id := by rw [hid]
  induction N generalizing st with
  | zero => exact hn
  | succ m ih =>
    rw [simulateN]
    apply ih
    rw [simulate]
    exact updatePositions_pinned
      (applyAttractionForces_pinned conns
        (applyRepulsionForces_pinned
          (applyCenteringForce_pinned hn hp) hp) hp) hp

/-- A node at the origin with id "p". -/
def nodeP : Node := ⟨"p", [], 0, 0, 0, 0⟩

/-- A node at (3,4) — distance 5 from the origin — with id "q". -/
def nodeQ : Node := ⟨"q", [], 3, 4, 0, 0⟩

/-- Witness for C7: node "p" pinned as dragged; two ticks of the simulation
on `[nodeP, nodeQ]` return entry 0 exactly as it went in. -/
theorem pinned_node_c7_witness :
    (simulateN ratSqrt 2 ⟨[nodeP, nodeQ], baseAlpha⟩ [] (some "p")).nodes[0]? =
      some nodeP :=
  pinned_node_c7 ratSqrt [] "p" 2 ⟨[nodeP, nodeQ], baseAlpha⟩ 0 nodeP rfl rfl

/-- A node at (3/5, 0) — at distance 3/5, strictly between 0 and 1, from the
origin — with id "h". -/
def nodeH : Node := ⟨"h", [], 3/5, 0, 0, 0⟩

/-- C1 counterexample: for the pair `(nodeP, nodeH)` at true distance 3/5
(strictly between 0 and 1), the code's repulsion force magnitude is
`repulsion * alpha / (3/5)² = 12500/3`, while the claimed formula with the
distance floored to 1 (`d := max(1, distance)`) gives 1500.  The `|| 1`
fallback applies only at exactly zero distance, so the claim's "flooring
applies to all distances, including those strictly between 0 and 1" is
false. -/
theorem repulsion_c1_counterexample :
    ratSqrt (sqDistN nodeP nodeH) = 3/5 ∧
    jsDist ratSqrt nodeP nodeH = 3/5 ∧
    repForce ratSqrt baseAlpha nodeP nodeH = 12500/3 ∧
    repulsion * baseAlpha /
      (max 1 (ratSqrt (sqDistN nodeP nodeH)) *
        max 1 (ratSqrt (sqDistN nodeP nodeH))) = 1500 ∧
    (12500/3 : ℚ) ≠ 1500 := by
  have hs : sqDistN nodeP nodeH = 9/25 := by
    norm_num [sqDistN, nodeP, nodeH]
  have hr : ratSqrt (9/25 : ℚ) = 3/5 := by
    norm_num [ratSqrt, natSqrtFn, natSqrtGo]
  have hj : jsDist ratSqrt nodeP nodeH = 3/5 := by
    rw [jsDist, hs, hr]
    norm_num
  refine ⟨hs ▸ hr, hj, ?_, ?_, by norm_num⟩
  · rw [repForce, hj, repulsion, baseAlpha]
    norm_num
  · rw [hs, hr, repulsion, baseAlpha]
    norm_num

/-- C1 amended: in the repulsion step, for every pair of distinct indices and
any nonzero distance `d` (including distances strictly inside (0,1), which
are NOT floored — the `|| 1` substitution applies only when the distance is
exactly 0), the applied force has magnitude `repulsion * alpha / d²`
(stated as: the kick vector's squared norm equals the force squared, and the
force equals `repulsion * alpha` divided by the squared distance), and it is
accumulated into each endpoint's velocity — subtracted at `i`, added at `j`
— unless that endpoint is the pinned node; all other entries are untouched. -/
theorem repulsion_c1_amended (sq : ℚ → ℚ) (alpha : ℚ)
    (dragged : Option String) (ns : List Node) (i j : Nat) (n1 n2 : Node)
    (hi : ns[i]? = some n1) (hj : ns[j]? = some n2) (hij : i ≠ j)
    (hs : IsSqrtAt sq (sqDistN n1 n2)) (hd : sq (sqDistN n1 n2) ≠ 0) :
    jsDist sq n1 n2 = sq (sqDistN n1 n2) ∧
    repFx sq alpha n1 n2 ^ 2 + repFy sq alpha n1 n2 ^ 2 =
      repForce sq alpha n1 n2 ^ 2 ∧
    repForce sq alpha n1 n2 = repulsion * alpha / sqDistN n1 n2 ∧
    (applyPairKick sq alpha dragged ns i j)[i]? =
      some (if dragged = some n1.id then n1
        else { n1 with vx := n1.vx - repFx sq alpha n1 n2,
                       vy := n1.vy - repFy sq alpha n1 n2 }) ∧
    (applyPairKick sq alpha dragged ns i j)[j]? =
      some (if dragged = some n2.id then n2
        else { n2 with vx := n2.vx + repFx sq alpha n1 n2,
                       vy := n2.vy + repFy sq alpha n1 n2 }) ∧
    (∀ k, k ≠ i → k ≠ j → (applyPairKick sq alpha dragged ns i j)[k]? = ns[k]?) := by
  have hD : jsDist sq n1 n2 = sq (sqDistN n1 n2) := if_neg hd
  have hDD : jsDist sq n1 n2 * jsDist sq n1 n2 = sqDistN n1 n2 := by
    rw [hD]; exact hs.2
  have hD0 : jsDist sq n1 n2 ≠ 0 := by rw [hD]; exact hd
  have hilen : i < ns.length := by
    rcases List.getElem?_eq_some_iff.mp hi with ⟨h, _⟩
    exact h
  have hjlen : j < ns.length := by
    rcases List.getElem?_eq_some_iff.mp hj with ⟨h, _⟩
    exact h
  have hset : ∀ (l : List Node) (k : Nat) (v : Node), k < l.length →
      (l.set k v)[k]? = some v := by
    intro l k v hk
    rw [List.getElem?_set_self' ]
    · rw [List.getElem?_eq_getElem hk]
      rfl
  refine ⟨hD, ?_, ?_, ?_, ?_, ?_⟩
  · have key : ∀ dx dy D F : ℚ, D ≠ 0 → D * D = dx * dx + dy * dy →
        ((dx / D) * F) ^ 2 + ((dy / D) * F) ^ 2 = F ^ 2 := by
      intro dx dy D F h0 hsq2
      field_simp
      linear_combination F ^ 2 * hsq2.symm
    rw [repFx, repFy]
    exact key _ _ _ _ hD0 (by rw [hDD, sqDistN])
  · rw [repForce, hDD]
  · rw [applyPairKick, hi, hj]
    simp only
    by_cases h1 : dragged = some n1.id
    · rw [if_pos h1, if_pos h1]
      by_cases h2 : dragged = some n2.id
      · rw [if_pos h2]; exact hi
      · rw [if_neg h2, bumpV_getElem_ne _ _ _ _ (Ne.symm hij)]
        exact hi
    · rw [if_neg h1, if_neg h1]
      have hbump : (bumpV ns i (-repFx sq alpha n1 n2) (-repFy sq alpha n1 n2))[i]? =
          some { n1 with vx := n1.vx - repFx sq alpha n1 n2,
                         vy := n1.vy - repFy sq alpha n1 n2 } := by
        rw [bumpV, hi]
        simp only [sub_eq_add_neg]
        exact hset ns i _ hilen
      by_cases h2 : dragged = some n2.id
      · rw [if_pos h2]; exact hbump
      · rw [if_neg h2, bumpV_getElem_ne _ _ _ _ (Ne.symm hij)]
        exact hbump
  · rw [applyPairKick, hi, hj]
    simp only
    by_cases h2 : dragged = some n2.id
    · rw [if_pos h2, if_pos h2]
      by_cases h1 : dragged = some n1.id
      · rw [if_pos h1]; exact hj
      · rw [if_neg h1, bumpV_getElem_ne _ _ _ _ hij]
        exact hj
    · rw [if_neg h2, if_neg h2]
      by_cases h1 : dragged = some n1.id
      · rw [if_pos h1, bumpV, hj]
        exact hset ns j _ hjlen
      · have hns1 : (bumpV ns i (-repFx sq alpha n1 n2) (-repFy sq alpha n1 n2))[j]? =
            some n2 := by
          rw [bumpV_getElem_ne _ _ _ _ hij]
          exact hj
        rw [if_neg h1, bumpV, hns1]
        apply hset
        rw [bumpV]
        cases hx : ns[i]? with
        | none => exact hjlen
        | some nn => rw [List.length_set]; exact hjlen
  · intro k hki hkj
    rw [applyPairKick, hi, hj]
    simp only
    by_cases h1 : dragged = some n1.id <;> by_cases h2 : dragged = some n2.id
    · rw [if_pos h1, if_pos h2]
    · rw [if_pos h1, if_neg h2, bumpV_getElem_ne _ _ _ _ (Ne.symm hkj)]
    · rw [if_neg h1, if_pos h2, bumpV_getElem_ne _ _ _ _ (Ne.symm hki)]
    · rw [if_neg h1, if_neg h2, bumpV_getElem_ne _ _ _ _ (Ne.symm hkj),
        bumpV_getElem_ne _ _ _ _ (Ne.symm hki)]

/-- Witness for C1 amended: the pair `(nodeP, nodeQ)` at distance 5 with no
node pinned — the kick components are exactly 36 and 48 and entry 0 receives
the subtracted kick. -/
theorem repulsion_c1_witness :
    (applyPairKick ratSqrt baseAlpha none [nodeP, nodeQ] 0 1)[0]? =
      some { nodeP with vx := nodeP.vx - repFx ratSqrt baseAlpha nodeP nodeQ,
                        vy := nodeP.vy - repFy ratSqrt baseAlpha nodeP nodeQ } ∧
    repFx ratSqrt baseAlpha nodeP nodeQ = 36 ∧
    repFy ratSqrt baseAlpha nodeP nodeQ = 48 := by
  have hs25 : sqDistN nodeP nodeQ = 25 := by norm_num [sqDistN, nodeP, nodeQ]
  have hr : ratSqrt (25 : ℚ) = 5 := by norm_num [ratSqrt, natSqrtFn, natSqrtGo]
  have hsq : IsSqrtAt ratSqrt (sqDistN nodeP nodeQ) := by
    rw [IsSqrtAt, hs25, hr]
    norm_num
  have hd : ratSqrt (sqDistN nodeP nodeQ) ≠ 0 := by
    rw [hs25, hr]
    norm_num
  have h := repulsion_c1_amended ratSqrt baseAlpha none [nodeP, nodeQ] 0 1
    nodeP nodeQ rfl rfl (by norm_num) hsq hd
  have hj5 : jsDist ratSqrt nodeP nodeQ = 5 := by
    rw [h.1, hs25, hr]
  have hF : repForce ratSqrt baseAlpha nodeP nodeQ = 60 := by
    rw [repForce, hj5, repulsion, baseAlpha]
    norm_num
  refine ⟨?_, ?_, ?_⟩
  · have h4 := h.2.2.2.1
    rw [if_neg (by simp)] at h4
    exact h4
  · rw [repFx, hj5, hF]
    norm_num [nodeP, nodeQ]
  · rw [repFy, hj5, hF]
    norm_num [nodeP, nodeQ]

/-- Entry-level effect of one attraction connection kick: the source gets the
kick added and the target gets it subtracted (each unless pinned), all other
entries untouched. -/
lemma applyConnKick_eval (sq : ℚ → ℚ) (alpha : ℚ) (dragged : Option String)
    (ns : List Node) (c : Connection) (si ti : Nat) (s t : Node)
    (hsi : ns.findIdx? (fun n => n.id == c.source) = some si)
    (hti : ns.findIdx? (fun n => n.id == c.target) = some ti)
    (hs : ns[si]? = some s) (ht : ns[ti]? = some t) (hst : si ≠ ti) :
    (applyConnKick sq alpha dragged ns c)[si]? =
      some (if dragged = some s.id then s
        else { s with vx := s.vx + attrFx sq alpha c s t,
                      vy := s.vy + attrFy sq alpha c s t }) ∧
    (applyConnKick sq alpha dragged ns c)[ti]? =
      some (if dragged = some t.id then t
        else { t with vx := t.vx - attrFx sq alpha c s t,
                      vy := t.vy - attrFy sq alpha c s t }) ∧
    (∀ k, k ≠ si → k ≠ ti → (applyConnKick sq alpha dragged ns c)[k]? = ns[k]?) := by
  have hslen : si < ns.length := by
    rcases List.getElem?_eq_some_iff.mp hs with ⟨h, _⟩
    exact h
  have htlen : ti < ns.length := by
    rcases List.getElem?_eq_some_iff.mp ht with ⟨h, _⟩
    exact h
  have hset : ∀ (l : List Node) (k : Nat) (v : Node), k < l.length →
      (l.set k v)[k]? = some v := by
    intro l k v hk
    rw [List.getElem?_set_self']
    rw [List.getElem?_eq_getElem hk]
    rfl
  refine ⟨?_, ?_, ?_⟩
  · rw [applyConnKick, hsi, hti]
    simp only
    rw [hs, ht]
    simp only
    by_cases h1 : dragged = some s.id
    · rw [if_pos h1, if_pos h1]
      by_cases h2 : dragged = some t.id
      · rw [if_pos h2]; exact hs
      · rw [if_neg h2, bumpV_getElem_ne _ _ _ _ (Ne.symm hst)]
        exact hs
    · rw [if_neg h1, if_neg h1]
      have hbump : (bumpV ns si (attrFx sq alpha c s t) (attrFy sq alpha c s t))[si]? =
          some { s with vx := s.vx + attrFx sq alpha c s t,
                        vy := s.vy + attrFy sq alpha c s t } := by
        rw [bumpV, hs]
        exact hset ns si _ hslen
      by_cases h2 : dragged = some t.id
      · rw [if_pos h2]; exact hbump
      · rw [if_neg h2, bumpV_getElem_ne _ _ _ _ (Ne.symm hst)]
        exact hbump
  · rw [applyConnKick, hsi, hti]
    simp only
    rw [hs, ht]
    simp only
    by_cases h2 : dragged = some t.id
    · rw [if_pos h2, if_pos h2]
      by_cases h1 : dragged = some s.id
      · rw [if_pos h1]; exact ht
      · rw [if_neg h1, bumpV_getElem_ne _ _ _ _ hst]
        exact ht
    · rw [if_neg h2, if_neg h2]
      by_cases h1 : dragged = some s.id
      · rw [if_pos h1, bumpV, ht]
        simp only [sub_eq_add_neg]
        exact hset ns ti _ htlen
      · have hns1 : (bumpV ns si (attrFx sq alpha c s t) (attrFy sq alpha c s t))[ti]? =
            some t := by
          rw [bumpV_getElem_ne _ _ _ _ hst]
          exact ht
        rw [if_neg h1, bumpV, hns1]
        simp only [sub_eq_add_neg]
        apply hset
        rw [bumpV]
        cases hx : ns[si]? with
        | none => exact htlen
        | some nn => rw [List.length_set]; exact htlen
  · intro k hks hkt
    rw [applyConnKick, hsi, hti]
    simp only
    rw [hs, ht]
    simp only
    by_cases h1 : dragged = some s.id <;> by_cases h2 : dragged = some t.id
    · rw [if_pos h1, if_pos h2]
    · rw [if_pos h1, if_neg h2, bumpV_getElem_ne _ _ _ _ (Ne.symm hkt)]
    · rw [if_neg h1, if_pos h2, bumpV_getElem_ne _ _ _ _ (Ne.symm hks)]
    · rw [if_neg h1, if_neg h2, bumpV_getElem_ne _ _ _ _ (Ne.symm hkt),
        bumpV_getElem_ne _ _ _ _ (Ne.symm hks)]

/-- A connection of strength exactly 0 from "p" to "q". -/
def connZero : Connection := ⟨"p", "q", 0, false⟩

/-- A connection of strength 1/2 from "p" to "q". -/
def connHalf : Connection := ⟨"p", "q", 1/2, false⟩

/-- C3 counterexample: the code computes `conn.strength || 0.1`, so the
strength-0 connection `connZero` between `nodeP` and `nodeQ` (distance 5)
exerts the force of a strength-0.1 connection — magnitude 3/2000, not the 0
the claim's formula `d * attractionConstant * strength * alpha` demands —
and one attraction pass visibly changes the source's velocity. -/
theorem attraction_c3_counterexample :
    attrStrength connZero = 1/10 ∧
    jsDist ratSqrt nodeP nodeQ * attraction * connZero.strength * baseAlpha = 0 ∧
    attrForce ratSqrt baseAlpha connZero nodeP nodeQ = 3/2000 ∧
    (3/2000 : ℚ) ≠ 0 ∧
    (applyAttractionForces ratSqrt baseAlpha none [nodeP, nodeQ] [connZero])[0]? =
      some { nodeP with vx := 9/10000, vy := 3/2500 } ∧
    ({ nodeP with vx := (9/10000 : ℚ), vy := (3/2500 : ℚ) } : Node) ≠ nodeP := by
  have hs25 : sqDistN nodeP nodeQ = 25 := by norm_num [sqDistN, nodeP, nodeQ]
  have hr : ratSqrt (25 : ℚ) = 5 := by norm_num [ratSqrt, natSqrtFn, natSqrtGo]
  have hj5 : jsDist ratSqrt nodeP nodeQ = 5 := by
    rw [jsDist, hs25, hr]
    norm_num
  have hstr : attrStrength connZero = 1/10 := by
    norm_num [attrStrength, connZero]
  have hF : attrForce ratSqrt baseAlpha connZero nodeP nodeQ = 3/2000 := by
    rw [attrForce, hj5, hstr, attraction, baseAlpha]
    norm_num
  have hfx : attrFx ratSqrt baseAlpha connZero nodeP nodeQ = 9/10000 := by
    rw [attrFx, hj5, hF]
    norm_num [nodeP, nodeQ]
  have hfy : attrFy ratSqrt baseAlpha connZero nodeP nodeQ = 3/2500 := by
    rw [attrFy, hj5, hF]
    norm_num [nodeP, nodeQ]
  refine ⟨hstr, ?_, hF, by norm_num, ?_, ?_⟩
  · have : connZero.strength = 0 := rfl
    rw [this]
    ring
  · rw [applyAttractionForces, List.foldl_cons, List.foldl_nil]
    have h := (applyConnKick_eval ratSqrt baseAlpha none [nodeP, nodeQ] connZero
      0 1 nodeP nodeQ rfl rfl rfl rfl (by norm_num)).1
    rw [if_neg (by simp), hfx, hfy] at h
    rw [h]
    norm_num [nodeP]
  · intro hcon
    have := congrArg Node.vx hcon
    simp [nodeP] at this

/-- C3 amended: for every connection whose endpoints both resolve, at nonzero
endpoint distance `d`, the applied spring force has magnitude
`d * attractionConstant * strength' * alpha` where `strength'` is the
connection's strength for nonzero strengths but 0.1 when the stored strength
is exactly 0 (JavaScript `strength || 0.1`); so proportionality to strength
holds on (0,1] only, and the force is added to the source's velocity and
subtracted from the target's, each unless pinned, all other entries
untouched. -/
theorem attraction_c3_amended (sq : ℚ → ℚ) (alpha : ℚ)
    (dragged : Option String) (ns : List Node) (c : Connection)
    (si ti : Nat) (s t : Node)
    (hsi : ns.findIdx? (fun n => n.id == c.source) = some si)
    (hti : ns.findIdx? (fun n => n.id == c.target) = some ti)
    (hs : ns[si]? = some s) (ht : ns[ti]? = some t) (hst : si ≠ ti)
    (hsq : IsSqrtAt sq (sqDistN s t)) (hd : sq (sqDistN s t) ≠ 0) :
    jsDist sq s t = sq (sqDistN s t) ∧
    (c.strength ≠ 0 → attrStrength c = c.strength) ∧
    (c.strength = 0 → attrStrength c = 1/10) ∧
    attrFx sq alpha c s t ^ 2 + attrFy sq alpha c s t ^ 2 =
      attrForce sq alpha c s t ^ 2 ∧
    attrForce sq alpha c s t = sq (sqDistN s t) * attraction * attrStrength c * alpha ∧
    (applyConnKick sq alpha dragged ns c)[si]? =
      some (if dragged = some s.id then s
        else { s with vx := s.vx + attrFx sq alpha c s t,
                      vy := s.vy + attrFy sq alpha c s t }) ∧
    (applyConnKick sq alpha dragged ns c)[ti]? =
      some (if dragged = some t.id then t
        else { t with vx := t.vx - attrFx sq alpha c s t,
                      vy := t.vy - attrFy sq alpha c s t }) ∧
    (∀ k, k ≠ si → k ≠ ti → (applyConnKick sq alpha dragged ns c)[k]? = ns[k]?) := by
  have hD : jsDist sq s t = sq (sqDistN s t) := if_neg hd
  have hDD : jsDist sq s t * jsDist sq s t = sqDistN s t := by
    rw [hD]; exact hsq.2
  have hD0 : jsDist sq s t ≠ 0 := by rw [hD]; exact hd
  have heval := applyConnKick_eval sq alpha dragged ns c si ti s t hsi hti hs ht hst
  refine ⟨hD, fun h => if_neg h, fun h => if_pos h, ?_, ?_, heval.1, heval.2.1, heval.2.2⟩
  · have key : ∀ dx dy D F : ℚ, D ≠ 0 → D * D = dx * dx + dy * dy →
        ((dx / D) * F) ^ 2 + ((dy / D) * F) ^ 2 = F ^ 2 := by
      intro dx dy D F h0 hsq2
      field_simp
      linear_combination F ^ 2 * hsq2.symm
    rw [attrFx, attrFy]
    exact key _ _ _ _ hD0 (by rw [hDD, sqDistN])
  · rw [attrForce, hD]

/-- Witness for C3 amended: the strength-1/2 connection `connHalf` between
`nodeP` and `nodeQ` keeps its stored strength, its force follows the
distance-times-strength formula, and one kick adds the force to the source's
velocity. -/
theorem attraction_c3_witness :
    attrStrength connHalf = connHalf.strength ∧
    attrForce ratSqrt baseAlpha connHalf nodeP nodeQ =
      ratSqrt (sqDistN nodeP nodeQ) * attraction * attrStrength connHalf * baseAlpha ∧
    (applyConnKick ratSqrt baseAlpha none [nodeP, nodeQ] connHalf)[0]? =
      some { nodeP with vx := nodeP.vx + attrFx ratSqrt baseAlpha connHalf nodeP nodeQ,
                        vy := nodeP.vy + attrFy ratSqrt baseAlpha connHalf nodeP nodeQ } := by
  have hs25 : sqDistN nodeP nodeQ = 25 := by norm_num [sqDistN, nodeP, nodeQ]
  have hr : ratSqrt (25 : ℚ) = 5 := by norm_num [ratSqrt, natSqrtFn, natSqrtGo]
  have hsq : IsSqrtAt ratSqrt (sqDistN nodeP nodeQ) := by
    rw [IsSqrtAt, hs25, hr]
    norm_num
  have hd : ratSqrt (sqDistN nodeP nodeQ) ≠ 0 := by
    rw [hs25, hr]
    norm_num
  have h := attraction_c3_amended ratSqrt baseAlpha none [nodeP, nodeQ] connHalf
    0 1 nodeP nodeQ rfl rfl rfl rfl (by norm_num) hsq hd
  refine ⟨h.2.1 (by norm_num [connHalf]), h.2.2.2.2.1, ?_⟩
  have h6 := h.2.2.2.2.2.1
  rw [if_neg (by simp)] at h6
  exact h6

/-- A zero-velocity bump is the identity on the node list. -/
lemma bumpV_zero (l : List Node) (k : Nat) : bumpV l k 0 0 = l := by
  rw [bumpV]
  cases h : l[k]? with
  | none => rfl
  | some m =>
    show l.set k { m with vx := m.vx + 0, vy := m.vy + 0 } = l
    have hm : { m with vx := m.vx + 0, vy := m.vy + 0 } = m := by simp
    rw [hm]
    exact set_self_of_getElem? l k m h

/-- C9: with `sq 0 = 0` (the exact square root of zero), two coincident nodes
produce a pair kick that leaves the node list exactly unchanged — the zero
distance is replaced by 1 (`jsDist = 1`), so the division yields a zero force
vector rather than anything undefined — and one full simulate tick on the
scenario "A at (0,0), B at (0,0), no connection" returns both nodes exactly
as they went in: every position and velocity is the finite rational 0, never
any NaN or infinity (no such values exist in this exact-arithmetic model,
and the divisor is the nonzero 1). -/
theorem coincident_safe_c9 (sq : ℚ → ℚ) (h0 : sq 0 = 0) :
    (∀ (alpha : ℚ) (dragged : Option String) (ns : List Node) (i j : Nat)
      (n1 n2 : Node), ns[i]? = some n1 → ns[j]? = some n2 →
      n1.x = n2.x → n1.y = n2.y →
      applyPairKick sq alpha dragged ns i j = ns) ∧
    jsDist sq nodeP nodeNear = 1 ∧
    simulate sq ⟨[nodeP, nodeNear], baseAlpha⟩ [] none =
      ⟨[nodeP, nodeNear], tickAlpha baseAlpha⟩ := by
  have hkick : ∀ (alpha : ℚ) (dragged : Option String) (ns : List Node)
      (i j : Nat) (n1 n2 : Node), ns[i]? = some n1 → ns[j]? = some n2 →
      n1.x = n2.x → n1.y = n2.y →
      applyPairKick sq alpha dragged ns i j = ns := by
    intro alpha dragged ns i j n1 n2 hi hj hx hy
    have hfx : repFx sq alpha n1 n2 = 0 := by
      rw [repFx, hx]
      simp
    have hfy : repFy sq alpha n1 n2 = 0 := by
      rw [repFy, hy]
      simp
    rw [applyPairKick, hi, hj]
    simp only [hfx, hfy, neg_zero]
    split_ifs <;> simp only [bumpV_zero]
  refine ⟨hkick, ?_, ?_⟩
  · have hs0 : sqDistN nodeP nodeNear = 0 := by
      norm_num [sqDistN, nodeP, nodeNear]
    rw [jsDist, hs0, h0]
    norm_num
  · have hcent : applyCenteringForce baseAlpha none [nodeP, nodeNear] =
        [nodeP, nodeNear] := by
      rw [applyCenteringForce, if_neg (by norm_num [centerForce])]
      simp [nodeP, nodeNear]
    have hrep : applyRepulsionForces sq baseAlpha none [nodeP, nodeNear] =
        [nodeP, nodeNear] := by
      rw [applyRepulsionForces]
      have hpl : pairIdx (([nodeP, nodeNear] : List Node).length) = [(0, 1)] := rfl
      rw [hpl, List.foldl_cons, List.foldl_nil]
      exact hkick baseAlpha none _ 0 1 nodeP nodeNear rfl rfl rfl rfl
    have hupd : updatePositions none [nodeP, nodeNear] = [nodeP, nodeNear] := by
      rw [updatePositions]
      simp [integrate, nodeP, nodeNear, damping]
    show SimState.mk (updatePositions none
      (applyAttractionForces sq baseAlpha none
        (applyRepulsionForces sq baseAlpha none
          (applyCenteringForce baseAlpha none [nodeP, nodeNear])) []))
      (tickAlpha baseAlpha) = _
    rw [hcent, hrep, applyAttractionForces, List.foldl_nil, hupd]

/-- Witness for C9 at the executable square root: one tick on the coincident
pair returns it exactly. -/
theorem coincident_safe_c9_witness :
    simulate ratSqrt ⟨[nodeP, nodeNear], baseAlpha⟩ [] none =
      ⟨[nodeP, nodeNear], tickAlpha baseAlpha⟩ :=
  (coincident_safe_c9 ratSqrt (by norm_num [ratSqrt, natSqrtFn, natSqrtGo])).2.2
